import Mathlib

/-!
Verification of the mortgage prepayment calculator
(`src/client/src/lib/mortgageCalculator.ts`).

The numeric code is embedded over `ℚ` (exact arithmetic): every arithmetic
operation of the source (`+`, `-`, `*`, `/`, `Math.pow` with a natural
exponent, `Math.max`, `Math.ceil`, `Math.floor` on integer division) is
translated to the corresponding exact operation.  Period counts are natural
numbers; the binary-search bounds are integers (in the source `high` can
reach `-1` before the loop exits, so `ℤ` reproduces the loop exactly,
including its exit condition).  In every state reachable from the entry call
(`low = 1`, `high = 1000`) the probe `mid` satisfies `1 ≤ mid`, so taking
`mid.toNat` as the period count passed to `calculateEqualPayment` agrees
with the source.
-/

namespace Mortgage

/-- `repaymentMethod` field of `MortgageInput` (a two-value string enum in
the source). -/
inductive RepaymentMethod
  | equal_principal_interest
  | equal_principal
  deriving DecidableEq, Repr

/-- `prepaymentType` field of `MortgageInput` (a two-value string enum in
the source). -/
inductive PrepaymentType
  | reduce_payment
  | reduce_period
  deriving DecidableEq, Repr

/-- `MortgageInput` record from the source. -/
structure MortgageInput where
  totalLoan : ℚ
  remainingPeriods : ℕ
  annualRate : ℚ
  prepaymentAmount : ℚ
  repaymentMethod : RepaymentMethod
  prepaymentType : PrepaymentType
  deriving DecidableEq, Repr

/-- `PaymentSchedule` record from the source: one row of an amortization
schedule. -/
structure PaymentSchedule where
  period : ℕ
  payment : ℚ
  principal : ℚ
  interest : ℚ
  balance : ℚ
  deriving DecidableEq, Repr, Inhabited

/-- `CalculationResult` record from the source. -/
structure CalculationResult where
  originalMonthlyPayment : ℚ
  totalInterestOriginal : ℚ
  newMonthlyPayment : ℚ
  totalInterestNew : ℚ
  interestSavings : ℚ
  periodReduction : ℤ
  newRemainingPeriods : ℤ
  schedule : List PaymentSchedule
  deriving DecidableEq, Repr

/-- `getMonthlyRate`: monthlyRate = annualRate / 100 / 12. -/
def getMonthlyRate (annualRate : ℚ) : ℚ :=
  annualRate / 100 / 12

/-- `calculateEqualPayment`: the fixed monthly payment of the
equal-installment method, `P * [r(1+r)^n] / [(1+r)^n - 1]`, or `P / n`
when the monthly rate is zero. -/
def calculateEqualPayment (principal monthlyRate : ℚ) (periods : ℕ) : ℚ :=
  if monthlyRate = 0 then
    principal / periods
  else
    let numerator := monthlyRate * (1 + monthlyRate) ^ periods
    let denominator := (1 + monthlyRate) ^ periods - 1
    principal * numerator / denominator

/-- The `for` loop of `generateEqualPaymentSchedule`: `count` iterations
remaining, `i` the 1-based index of the next period, `balance` the running
(unclamped) balance.  Only the recorded `balance` field is clamped with
`max 0`; the running balance is not, exactly as in the source. -/
def equalPaymentLoop (monthlyPayment monthlyRate : ℚ) :
    ℕ → ℕ → ℚ → List PaymentSchedule
  | 0, _, _ => []
  | count + 1, i, balance =>
    let interest := balance * monthlyRate
    let principalPayment := monthlyPayment - interest
    let newBalance := balance - principalPayment
    { period := i, payment := monthlyPayment, principal := principalPayment,
      interest := interest, balance := max 0 newBalance } ::
      equalPaymentLoop monthlyPayment monthlyRate count (i + 1) newBalance

/-- `generateEqualPaymentSchedule`: amortization schedule of the
equal-installment method. -/
def generateEqualPaymentSchedule (principal monthlyRate : ℚ)
    (periods : ℕ) : List PaymentSchedule :=
  equalPaymentLoop (calculateEqualPayment principal monthlyRate periods)
    monthlyRate periods 1 principal

/-- The `for` loop of `generateEqualPrincipalSchedule`, with the same
state convention as `equalPaymentLoop`. -/
def equalPrincipalLoop (principalPayment monthlyRate : ℚ) :
    ℕ → ℕ → ℚ → List PaymentSchedule
  | 0, _, _ => []
  | count + 1, i, balance =>
    let interest := balance * monthlyRate
    let payment := principalPayment + interest
    let newBalance := balance - principalPayment
    { period := i, payment := payment, principal := principalPayment,
      interest := interest, balance := max 0 newBalance } ::
      equalPrincipalLoop principalPayment monthlyRate count (i + 1) newBalance

/-- `generateEqualPrincipalSchedule`: amortization schedule of the
equal-principal method; the principal portion is `principal / periods`
every period. -/
def generateEqualPrincipalSchedule (principal monthlyRate : ℚ)
    (periods : ℕ) : List PaymentSchedule :=
  equalPrincipalLoop (principal / periods) monthlyRate periods 1 principal

/-- `calculateTotalInterest`: `schedule.reduce((sum, item) => sum +
item.interest, 0)`. -/
def calculateTotalInterest (schedule : List PaymentSchedule) : ℚ :=
  schedule.foldl (fun sum item => sum + item.interest) 0

/-- The `while (low <= high)` loop of `calculateNewPeriods`.  The bounds
live in `ℤ` because in the source `high = mid - 1` can reach `0 - 1 = -1`;
`(low + high) / 2` is floor division, as `Math.floor((low + high) / 2)`
in the source. -/
def binarySearchLoop (principal monthlyRate monthlyPayment : ℚ)
    (low high result : ℤ) : ℤ :=
  if h : low ≤ high then
    let mid := (low + high) / 2
    let testPayment := calculateEqualPayment principal monthlyRate mid.toNat
    if testPayment ≤ monthlyPayment then
      binarySearchLoop principal monthlyRate monthlyPayment low (mid - 1) mid
    else
      binarySearchLoop principal monthlyRate monthlyPayment (mid + 1) high result
  else
    result
termination_by (high + 1 - low).toNat
decreasing_by
  · omega
  · omega

/-- `calculateNewPeriods`: the shortest term (capped at 1000) whose
equal-installment payment does not exceed `monthlyPayment`; direct ceiling
division when the monthly rate is zero. -/
def calculateNewPeriods (principal monthlyRate monthlyPayment : ℚ) : ℤ :=
  if monthlyRate = 0 then
    ⌈principal / monthlyPayment⌉
  else
    binarySearchLoop principal monthlyRate monthlyPayment 1 1000 1000

/-- `calculateMortgage`: the exported top-level calculation.  The source
reads `originalSchedule[0].payment`; with `remainingPeriods ≥ 1` the list
is nonempty and `headI` is that same entry. -/
def calculateMortgage (input : MortgageInput) : CalculationResult :=
  let monthlyRate := getMonthlyRate input.annualRate
  let originalSchedule :=
    match input.repaymentMethod with
    | .equal_principal_interest =>
      generateEqualPaymentSchedule input.totalLoan monthlyRate
        input.remainingPeriods
    | .equal_principal =>
      generateEqualPrincipalSchedule input.totalLoan monthlyRate
        input.remainingPeriods
  let originalMonthlyPayment := originalSchedule.headI.payment
  let totalInterestOriginal := calculateTotalInterest originalSchedule
  let remainingPrincipal := input.totalLoan - input.prepaymentAmount
  if remainingPrincipal ≤ 0 then
    { originalMonthlyPayment := originalMonthlyPayment
      totalInterestOriginal := totalInterestOriginal
      newMonthlyPayment := 0
      totalInterestNew := 0
      interestSavings := totalInterestOriginal
      periodReduction := (input.remainingPeriods : ℤ)
      newRemainingPeriods := 0
      schedule := [] }
  else
    match input.prepaymentType with
    | .reduce_payment =>
      let newRemainingPeriods := input.remainingPeriods
      let newSchedule :=
        match input.repaymentMethod with
        | .equal_principal_interest =>
          generateEqualPaymentSchedule remainingPrincipal monthlyRate
            newRemainingPeriods
        | .equal_principal =>
          generateEqualPrincipalSchedule remainingPrincipal monthlyRate
            newRemainingPeriods
      let totalInterestNew := calculateTotalInterest newSchedule
      { originalMonthlyPayment := originalMonthlyPayment
        totalInterestOriginal := totalInterestOriginal
        newMonthlyPayment := newSchedule.headI.payment
        totalInterestNew := totalInterestNew
        interestSavings := totalInterestOriginal - totalInterestNew
        periodReduction := 0
        newRemainingPeriods := (newRemainingPeriods : ℤ)
        schedule := newSchedule }
    | .reduce_period =>
      let newMonthlyPayment := originalMonthlyPayment
      let newRemainingPeriods : ℤ :=
        match input.repaymentMethod with
        | .equal_principal_interest =>
          calculateNewPeriods remainingPrincipal monthlyRate newMonthlyPayment
        | .equal_principal =>
          let originalPrincipalPayment :=
            input.totalLoan / input.remainingPeriods
          ⌈remainingPrincipal / originalPrincipalPayment⌉
      let newSchedule :=
        match input.repaymentMethod with
        | .equal_principal_interest =>
          generateEqualPaymentSchedule remainingPrincipal monthlyRate
            newRemainingPeriods.toNat
        | .equal_principal =>
          generateEqualPrincipalSchedule remainingPrincipal monthlyRate
            newRemainingPeriods.toNat
      let totalInterestNew := calculateTotalInterest newSchedule
      { originalMonthlyPayment := originalMonthlyPayment
        totalInterestOriginal := totalInterestOriginal
        newMonthlyPayment := newMonthlyPayment
        totalInterestNew := totalInterestNew
        interestSavings := totalInterestOriginal - totalInterestNew
        periodReduction := (input.remainingPeriods : ℤ) - newRemainingPeriods
        newRemainingPeriods := newRemainingPeriods
        schedule := newSchedule }

/-- The balance update of one period of the equal-installment loop:
subtract the principal component `monthlyPayment - balance * monthlyRate`. -/
def nextBalance (monthlyPayment monthlyRate balance : ℚ) : ℚ :=
  balance - (monthlyPayment - balance * monthlyRate)

/-! ### Entry-wise characterization of the two schedule loops -/

lemma equalPaymentLoop_length (M r : ℚ) :
    ∀ (count i : ℕ) (b : ℚ), (equalPaymentLoop M r count i b).length = count := by
  intro count
  induction count with
  | zero => intro i b; simp [equalPaymentLoop]
  | succ k ih => intro i b; simp [equalPaymentLoop, ih]

lemma equalPaymentLoop_getElem (M r : ℚ) :
    ∀ (count i : ℕ) (b : ℚ) (j : ℕ), j < count →
      (equalPaymentLoop M r count i b)[j]? =
        some { period := i + j, payment := M,
               principal := M - (nextBalance M r)^[j] b * r,
               interest := (nextBalance M r)^[j] b * r,
               balance := max 0 ((nextBalance M r)^[j + 1] b) } := by
  intro count
  induction count with
  | zero => intro i b j hj; omega
  | succ k ih =>
    intro i b j hj
    match j with
    | 0 =>
      simp [equalPaymentLoop, nextBalance]
    | j + 1 =>
      have hj' : j < k := by omega
      simp only [equalPaymentLoop, List.getElem?_cons_succ]
      rw [ih (i + 1) (b - (M - b * r)) j hj']
      have hb : b - (M - b * r) = nextBalance M r b := rfl
      simp only [hb, ← Function.iterate_succ_apply]
      congr 2
      omega

lemma equalPrincipalLoop_length (pp r : ℚ) :
    ∀ (count i : ℕ) (b : ℚ), (equalPrincipalLoop pp r count i b).length = count := by
  intro count
  induction count with
  | zero => intro i b; simp [equalPrincipalLoop]
  | succ k ih => intro i b; simp [equalPrincipalLoop, ih]

lemma equalPrincipalLoop_getElem (pp r : ℚ) :
    ∀ (count i : ℕ) (b : ℚ) (j : ℕ), j < count →
      (equalPrincipalLoop pp r count i b)[j]? =
        some { period := i + j, payment := pp + (b - j * pp) * r,
               principal := pp,
               interest := (b - j * pp) * r,
               balance := max 0 (b - (j + 1) * pp) } := by
  intro count
  induction count with
  | zero => intro i b j hj; omega
  | succ k ih =>
    intro i b j hj
    match j with
    | 0 =>
      simp [equalPrincipalLoop]
    | j + 1 =>
      have hj' : j < k := by omega
      simp only [equalPrincipalLoop, List.getElem?_cons_succ]
      rw [ih (i + 1) (b - pp) j hj']
      push_cast
      have h1 : b - pp - (j : ℚ) * pp = b - ((j : ℚ) + 1) * pp := by ring
      have h2 : b - pp - ((j : ℚ) + 1) * pp = b - ((j : ℚ) + 1 + 1) * pp := by ring
      have h3 : i + 1 + j = i + (j + 1) := by omega
      rw [h1, h2, h3]

/-! ### Closed form of the running balance -/

lemma iterate_nextBalance_zero (M b : ℚ) (j : ℕ) :
    (nextBalance M 0)^[j] b = b - j * M := by
  induction j with
  | zero => simp
  | succ k ih =>
    rw [Function.iterate_succ_apply', ih, nextBalance]
    push_cast
    ring

lemma iterate_nextBalance (M r b : ℚ) (hr : r ≠ 0) (j : ℕ) :
    (nextBalance M r)^[j] b = (b - M / r) * (1 + r) ^ j + M / r := by
  induction j with
  | zero => simp
  | succ k ih =>
    rw [Function.iterate_succ_apply', ih, nextBalance]
    field_simp
    ring

lemma calculateEqualPayment_pos_rate (p r : ℚ) (n : ℕ) (hr : r ≠ 0) :
    calculateEqualPayment p r n =
      p * (r * (1 + r) ^ n) / ((1 + r) ^ n - 1) := by
  rw [calculateEqualPayment, if_neg hr]

lemma one_lt_pow_rate (r : ℚ) (hr : 0 < r) (n : ℕ) (hn : 1 ≤ n) :
    1 < (1 + r) ^ n :=
  one_lt_pow₀ (by linarith) (by omega)

/-- Running balance of the equal-installment schedule in closed form:
before period `j + 1` the balance is `p * (x^n - x^j) / (x^n - 1)` with
`x = 1 + r`. -/
lemma balance_closed (p r : ℚ) (n : ℕ) (hr : 0 < r) (hn : 1 ≤ n) (j : ℕ) :
    (nextBalance (calculateEqualPayment p r n) r)^[j] p =
      p * ((1 + r) ^ n - (1 + r) ^ j) / ((1 + r) ^ n - 1) := by
  have hd : (0:ℚ) < (1 + r) ^ n - 1 := by
    have := one_lt_pow_rate r hr n hn
    linarith
  rw [iterate_nextBalance _ _ _ (ne_of_gt hr), calculateEqualPayment_pos_rate _ _ _ (ne_of_gt hr)]
  have hd' : ((1:ℚ) + r) ^ n - 1 ≠ 0 := ne_of_gt hd
  field_simp
  ring

/-! ### Sums of principal components -/

lemma equalPaymentLoop_sum_principal (M r : ℚ) :
    ∀ (count i : ℕ) (b : ℚ),
      ((equalPaymentLoop M r count i b).map PaymentSchedule.principal).sum =
        b - (nextBalance M r)^[count] b := by
  intro count
  induction count with
  | zero => intro i b; simp [equalPaymentLoop]
  | succ k ih =>
    intro i b
    rw [equalPaymentLoop]
    simp only [List.map_cons, List.sum_cons, ih]
    have hstep : (nextBalance M r)^[k] (b - (M - b * r)) =
        (nextBalance M r)^[k + 1] b := by
      rw [Function.iterate_succ_apply]
      rfl
    rw [hstep]
    ring

lemma equalPrincipalLoop_sum_principal (pp r : ℚ) :
    ∀ (count i : ℕ) (b : ℚ),
      ((equalPrincipalLoop pp r count i b).map PaymentSchedule.principal).sum =
        count * pp := by
  intro count
  induction count with
  | zero => intro i b; simp [equalPrincipalLoop]
  | succ k ih =>
    intro i b
    rw [equalPrincipalLoop]
    simp only [List.map_cons, List.sum_cons, ih]
    push_cast
    ring

/-! ### Schedule-level entry characterizations -/

lemma generateEqualPaymentSchedule_length (p r : ℚ) (n : ℕ) :
    (generateEqualPaymentSchedule p r n).length = n := by
  rw [generateEqualPaymentSchedule, equalPaymentLoop_length]

lemma generateEqualPaymentSchedule_getElem (p r : ℚ) (n j : ℕ) (hj : j < n) :
    (generateEqualPaymentSchedule p r n)[j]? =
      some { period := j + 1,
             payment := calculateEqualPayment p r n,
             principal := calculateEqualPayment p r n -
               (nextBalance (calculateEqualPayment p r n) r)^[j] p * r,
             interest := (nextBalance (calculateEqualPayment p r n) r)^[j] p * r,
             balance :=
               max 0 ((nextBalance (calculateEqualPayment p r n) r)^[j + 1] p) } := by
  rw [generateEqualPaymentSchedule, equalPaymentLoop_getElem _ _ n 1 p j hj]
  have h : 1 + j = j + 1 := by omega
  rw [h]

lemma generateEqualPrincipalSchedule_length (p r : ℚ) (n : ℕ) :
    (generateEqualPrincipalSchedule p r n).length = n := by
  rw [generateEqualPrincipalSchedule, equalPrincipalLoop_length]

lemma generateEqualPrincipalSchedule_getElem (p r : ℚ) (n j : ℕ) (hj : j < n) :
    (generateEqualPrincipalSchedule p r n)[j]? =
      some { period := j + 1,
             payment := p / n + (p - j * (p / n)) * r,
             principal := p / n,
             interest := (p - j * (p / n)) * r,
             balance := max 0 (p - (j + 1) * (p / n)) } := by
  rw [generateEqualPrincipalSchedule, equalPrincipalLoop_getElem _ _ n 1 p j hj]
  have h : 1 + j = j + 1 := by omega
  rw [h]

lemma mem_schedule_of_getElem {s : List PaymentSchedule} {e : PaymentSchedule}
    (he : e ∈ s) : ∃ j : ℕ, j < s.length ∧ s[j]? = some e := by
  rw [List.mem_iff_getElem] at he
  obtain ⟨j, hj, hje⟩ := he
  exact ⟨j, hj, by rw [List.getElem?_eq_some]; exact ⟨hj, hje⟩⟩

/-- C1: the equal-installment generator returns a schedule of `periods`
entries whose `payment` field is the same value in every entry —
`principal / periods` when the monthly rate is zero and
`principal * [r(1+r)^n] / [(1+r)^n - 1]` when it is positive — and whose
entry for period `i` has `interest = balance * r`, `principal = payment -
interest`, and records the running balance after subtracting the principal
component (clamped at zero). -/
theorem equalPaymentSchedule_spec (p r : ℚ) (n : ℕ) (hp : 0 < p) (hn : 1 ≤ n) :
    (generateEqualPaymentSchedule p r n).length = n ∧
    (∀ e ∈ generateEqualPaymentSchedule p r n,
      e.payment = calculateEqualPayment p r n) ∧
    (r = 0 → ∀ e ∈ generateEqualPaymentSchedule p r n, e.payment = p / n) ∧
    (0 < r → ∀ e ∈ generateEqualPaymentSchedule p r n,
      e.payment = p * (r * (1 + r) ^ n) / ((1 + r) ^ n - 1)) ∧
    (∀ j : ℕ, j < n →
      (generateEqualPaymentSchedule p r n)[j]? =
        some { period := j + 1,
               payment := calculateEqualPayment p r n,
               principal := calculateEqualPayment p r n -
                 (nextBalance (calculateEqualPayment p r n) r)^[j] p * r,
               interest := (nextBalance (calculateEqualPayment p r n) r)^[j] p * r,
               balance :=
                 max 0 ((nextBalance (calculateEqualPayment p r n) r)^[j + 1] p) }) := by
  have hlen := generateEqualPaymentSchedule_length p r n
  have hpay : ∀ e ∈ generateEqualPaymentSchedule p r n,
      e.payment = calculateEqualPayment p r n := by
    intro e he
    obtain ⟨j, hj, hje⟩ := mem_schedule_of_getElem he
    rw [hlen] at hj
    rw [generateEqualPaymentSchedule_getElem p r n j hj] at hje
    have := Option.some.inj hje
    rw [← this]
  refine ⟨hlen, hpay, ?_, ?_, fun j hj => generateEqualPaymentSchedule_getElem p r n j hj⟩
  · intro hr e he
    rw [hpay e he, calculateEqualPayment, if_pos hr]
  · intro hr e he
    rw [hpay e he, calculateEqualPayment_pos_rate _ _ _ (ne_of_gt hr)]

/-- C1 witness at `p = 100`, `r = 0`, `n = 2`. -/
theorem equalPaymentSchedule_spec_witness :
    ((0:ℚ) < 100 ∧ 1 ≤ 2) ∧
      (generateEqualPaymentSchedule 100 0 2).length = 2 :=
  ⟨⟨by norm_num, by norm_num⟩,
    (equalPaymentSchedule_spec 100 0 2 (by norm_num) (by norm_num)).1⟩

/-! ### Balance facts -/

lemma balance_zero_rate (p : ℚ) (n j : ℕ) :
    (nextBalance (calculateEqualPayment p 0 n) 0)^[j] p = p - j * (p / n) := by
  rw [iterate_nextBalance_zero, calculateEqualPayment, if_pos rfl]

lemma balance_closed_final (p r : ℚ) (n : ℕ) (hr : 0 < r) (hn : 1 ≤ n) :
    (nextBalance (calculateEqualPayment p r n) r)^[n] p = 0 := by
  rw [balance_closed p r n hr hn n]
  simp

lemma balance_closed_nonneg (p r : ℚ) (n j : ℕ) (hp : 0 < p) (hr : 0 < r)
    (hn : 1 ≤ n) (hj : j ≤ n) :
    0 ≤ (nextBalance (calculateEqualPayment p r n) r)^[j] p := by
  rw [balance_closed p r n hr hn j]
  have hd : (0:ℚ) < (1 + r) ^ n - 1 := by
    have := one_lt_pow_rate r hr n hn
    linarith
  have hle : ((1:ℚ) + r) ^ j ≤ (1 + r) ^ n :=
    pow_le_pow_right₀ (by linarith) hj
  apply div_nonneg _ (le_of_lt hd)
  nlinarith

lemma balance_closed_strict_anti (p r : ℚ) (n j : ℕ) (hp : 0 < p) (hr : 0 < r)
    (hn : 1 ≤ n) :
    (nextBalance (calculateEqualPayment p r n) r)^[j + 1] p <
      (nextBalance (calculateEqualPayment p r n) r)^[j] p := by
  have hd : (0:ℚ) < (1 + r) ^ n - 1 := by
    have := one_lt_pow_rate r hr n hn
    linarith
  have hxj : ((1:ℚ) + r) ^ j < (1 + r) ^ (j + 1) :=
    pow_lt_pow_right₀ (by linarith) (by omega)
  rw [balance_closed p r n hr hn (j + 1), balance_closed p r n hr hn j]
  rw [div_lt_div_iff_of_pos_right hd]
  nlinarith

/-- C7: in exact arithmetic the principal components of either generated
schedule sum to the input principal. -/
theorem schedule_principal_sum (p r : ℚ) (n : ℕ) (hp : 0 < p) (hr : 0 ≤ r)
    (hn : 1 ≤ n) :
    ((generateEqualPaymentSchedule p r n).map PaymentSchedule.principal).sum = p ∧
    ((generateEqualPrincipalSchedule p r n).map PaymentSchedule.principal).sum = p := by
  have hn0 : (n:ℚ) ≠ 0 := by
    have : 0 < n := by omega
    exact_mod_cast Nat.pos_iff_ne_zero.mp this
  constructor
  · rw [generateEqualPaymentSchedule, equalPaymentLoop_sum_principal]
    rcases eq_or_lt_of_le hr with hr0 | hrpos
    · rw [← hr0, balance_zero_rate]
      field_simp
    · rw [balance_closed_final p r n hrpos hn]
      ring
  · rw [generateEqualPrincipalSchedule, equalPrincipalLoop_sum_principal]
    field_simp

/-- C7 witness at `p = 100`, `r = 1/100`, `n = 2`. -/
theorem schedule_principal_sum_witness :
    ((0:ℚ) < 100 ∧ (0:ℚ) ≤ 1/100 ∧ 1 ≤ 2) ∧
      ((generateEqualPrincipalSchedule 100 (1/100) 2).map
        PaymentSchedule.principal).sum = 100 :=
  ⟨⟨by norm_num, by norm_num, by norm_num⟩,
    (schedule_principal_sum 100 (1/100) 2 (by norm_num) (by norm_num)
      (by norm_num)).2⟩

lemma get_of_getElem? {s : List PaymentSchedule} {j : ℕ} {e : PaymentSchedule}
    (h : j < s.length) (he : s[j]? = some e) : s.get ⟨j, h⟩ = e := by
  rw [List.get_eq_getElem]
  rw [List.getElem?_eq_some] at he
  exact he.2

lemma eqBalance_nonneg (p r : ℚ) (n j : ℕ) (hp : 0 < p) (hr : 0 ≤ r)
    (hn : 1 ≤ n) (hj : j ≤ n) :
    0 ≤ (nextBalance (calculateEqualPayment p r n) r)^[j] p := by
  rcases eq_or_lt_of_le hr with hr0 | hrpos
  · rw [← hr0, balance_zero_rate]
    have hq : (0:ℚ) < p / n := by positivity
    have hle : (j:ℚ) ≤ (n:ℚ) := by exact_mod_cast hj
    have hkey : p - (j:ℚ) * (p / n) = ((n:ℚ) - j) * (p / n) := by
      have hn0 : (n:ℚ) ≠ 0 := by positivity
      field_simp
      ring
    rw [hkey]
    exact mul_nonneg (by linarith) hq.le
  · exact balance_closed_nonneg p r n j hp hrpos hn hj

lemma eqBalance_strict_anti (p r : ℚ) (n j : ℕ) (hp : 0 < p) (hr : 0 ≤ r)
    (hn : 1 ≤ n) :
    (nextBalance (calculateEqualPayment p r n) r)^[j + 1] p <
      (nextBalance (calculateEqualPayment p r n) r)^[j] p := by
  rcases eq_or_lt_of_le hr with hr0 | hrpos
  · rw [← hr0, balance_zero_rate, balance_zero_rate]
    have hq : (0:ℚ) < p / n := by positivity
    push_cast
    linarith
  · exact balance_closed_strict_anti p r n j hp hrpos hn

lemma eqBalance_final (p r : ℚ) (n : ℕ) (hr : 0 ≤ r) (hn : 1 ≤ n) :
    (nextBalance (calculateEqualPayment p r n) r)^[n] p = 0 := by
  rcases eq_or_lt_of_le hr with hr0 | hrpos
  · rw [← hr0, balance_zero_rate]
    have hn0 : (n:ℚ) ≠ 0 := by
      have : 0 < n := by omega
      exact_mod_cast Nat.pos_iff_ne_zero.mp this
    field_simp
  · exact balance_closed_final p r n hrpos hn

/-- C8: every entry of the equal-principal schedule has principal component
`principal / periods`, and the payment sequence is non-increasing — strictly
decreasing when the monthly rate is positive. -/
theorem equalPrincipalSchedule_spec (p r : ℚ) (n : ℕ) (hp : 0 < p)
    (hr : 0 ≤ r) (hn : 1 ≤ n) :
    (∀ e ∈ generateEqualPrincipalSchedule p r n, e.principal = p / n) ∧
    (∀ (j : ℕ) (h : j + 1 < (generateEqualPrincipalSchedule p r n).length),
      ((generateEqualPrincipalSchedule p r n).get ⟨j + 1, h⟩).payment ≤
        ((generateEqualPrincipalSchedule p r n).get
          ⟨j, Nat.lt_of_succ_lt h⟩).payment) ∧
    (0 < r →
      ∀ (j : ℕ) (h : j + 1 < (generateEqualPrincipalSchedule p r n).length),
        ((generateEqualPrincipalSchedule p r n).get ⟨j + 1, h⟩).payment <
          ((generateEqualPrincipalSchedule p r n).get
            ⟨j, Nat.lt_of_succ_lt h⟩).payment) := by
  have hlen := generateEqualPrincipalSchedule_length p r n
  have hq : (0:ℚ) < p / n := by positivity
  have hgets : ∀ (j : ℕ) (h : j < (generateEqualPrincipalSchedule p r n).length),
      (generateEqualPrincipalSchedule p r n).get ⟨j, h⟩ =
        { period := j + 1,
          payment := p / n + (p - j * (p / n)) * r,
          principal := p / n,
          interest := (p - j * (p / n)) * r,
          balance := max 0 (p - (j + 1) * (p / n)) } := by
    intro j h
    exact get_of_getElem? h
      (generateEqualPrincipalSchedule_getElem p r n j (by omega))
  refine ⟨?_, ?_, ?_⟩
  · intro e he
    obtain ⟨j, hj, hje⟩ := mem_schedule_of_getElem he
    rw [hlen] at hj
    rw [generateEqualPrincipalSchedule_getElem p r n j hj] at hje
    rw [← Option.some.inj hje]
  · intro j h
    rw [hgets (j + 1) h, hgets j (Nat.lt_of_succ_lt h)]
    have hmul : 0 ≤ (p / n) * r := mul_nonneg hq.le hr
    push_cast
    nlinarith
  · intro hrpos j h
    rw [hgets (j + 1) h, hgets j (Nat.lt_of_succ_lt h)]
    have hmul : 0 < (p / n) * r := mul_pos hq hrpos
    push_cast
    nlinarith

/-- C8 witness at `p = 100`, `r = 0`, `n = 2`. -/
theorem equalPrincipalSchedule_spec_witness :
    ((0:ℚ) < 100 ∧ (0:ℚ) ≤ 0 ∧ 1 ≤ 2) ∧
      (∀ e ∈ generateEqualPrincipalSchedule 100 0 2, e.principal = 100 / 2) :=
  ⟨⟨by norm_num, by norm_num, by norm_num⟩,
    by
      have h := (equalPrincipalSchedule_spec 100 0 2 (by norm_num) (by norm_num)
        (by norm_num)).1
      intro e he
      rw [h e he]
      norm_num⟩

lemma prinBalance_nonneg (p : ℚ) (n j : ℕ) (hp : 0 < p) (hn : 1 ≤ n)
    (hj : j ≤ n) : 0 ≤ p - (j:ℚ) * (p / n) := by
  have hq : (0:ℚ) < p / n := by positivity
  have hle : (j:ℚ) ≤ (n:ℚ) := by exact_mod_cast hj
  have hn0 : (n:ℚ) ≠ 0 := by positivity
  have hkey : p - (j:ℚ) * (p / n) = ((n:ℚ) - j) * (p / n) := by
    field_simp
    ring
  rw [hkey]
  exact mul_nonneg (by linarith) hq.le

/-- C9: in every schedule returned by either generator, every recorded
balance is nonnegative (clamped with `max 0`), the recorded balances
strictly decrease along the schedule, and the final recorded balance is
exactly zero. -/
theorem schedule_balance_spec (p r : ℚ) (n : ℕ) (hp : 0 < p) (hr : 0 ≤ r)
    (hn : 1 ≤ n) :
    (∀ e ∈ generateEqualPaymentSchedule p r n, 0 ≤ e.balance) ∧
    (∀ e ∈ generateEqualPrincipalSchedule p r n, 0 ≤ e.balance) ∧
    (∀ (j : ℕ) (h : j + 1 < (generateEqualPaymentSchedule p r n).length),
      ((generateEqualPaymentSchedule p r n).get ⟨j + 1, h⟩).balance <
        ((generateEqualPaymentSchedule p r n).get
          ⟨j, Nat.lt_of_succ_lt h⟩).balance) ∧
    (∀ (j : ℕ) (h : j + 1 < (generateEqualPrincipalSchedule p r n).length),
      ((generateEqualPrincipalSchedule p r n).get ⟨j + 1, h⟩).balance <
        ((generateEqualPrincipalSchedule p r n).get
          ⟨j, Nat.lt_of_succ_lt h⟩).balance) ∧
    (∀ h : n - 1 < (generateEqualPaymentSchedule p r n).length,
      ((generateEqualPaymentSchedule p r n).get ⟨n - 1, h⟩).balance = 0) ∧
    (∀ h : n - 1 < (generateEqualPrincipalSchedule p r n).length,
      ((generateEqualPrincipalSchedule p r n).get ⟨n - 1, h⟩).balance = 0) := by
  have hlenA := generateEqualPaymentSchedule_length p r n
  have hlenB := generateEqualPrincipalSchedule_length p r n
  have hq : (0:ℚ) < p / n := by positivity
  have hgetsA : ∀ (j : ℕ) (h : j < (generateEqualPaymentSchedule p r n).length),
      (generateEqualPaymentSchedule p r n).get ⟨j, h⟩ =
        { period := j + 1,
          payment := calculateEqualPayment p r n,
          principal := calculateEqualPayment p r n -
            (nextBalance (calculateEqualPayment p r n) r)^[j] p * r,
          interest := (nextBalance (calculateEqualPayment p r n) r)^[j] p * r,
          balance :=
            max 0 ((nextBalance (calculateEqualPayment p r n) r)^[j + 1] p) } := by
    intro j h
    exact get_of_getElem? h (generateEqualPaymentSchedule_getElem p r n j (by omega))
  have hgetsB : ∀ (j : ℕ) (h : j < (generateEqualPrincipalSchedule p r n).length),
      (generateEqualPrincipalSchedule p r n).get ⟨j, h⟩ =
        { period := j + 1,
          payment := p / n + (p - j * (p / n)) * r,
          principal := p / n,
          interest := (p - j * (p / n)) * r,
          balance := max 0 (p - (j + 1) * (p / n)) } := by
    intro j h
    exact get_of_getElem? h (generateEqualPrincipalSchedule_getElem p r n j (by omega))
  refine ⟨?_, ?_, ?_, ?_, ?_, ?_⟩
  · intro e he
    obtain ⟨j, hj, hje⟩ := mem_schedule_of_getElem he
    rw [hlenA] at hj
    rw [generateEqualPaymentSchedule_getElem p r n j hj] at hje
    rw [← Option.some.inj hje]
    exact le_max_left 0 _
  · intro e he
    obtain ⟨j, hj, hje⟩ := mem_schedule_of_getElem he
    rw [hlenB] at hj
    rw [generateEqualPrincipalSchedule_getElem p r n j hj] at hje
    rw [← Option.some.inj hje]
    exact le_max_left 0 _
  · intro j h
    rw [hgetsA (j + 1) h, hgetsA j (Nat.lt_of_succ_lt h)]
    have hjn : j + 1 + 1 ≤ n := by omega
    have h2 : 0 ≤ (nextBalance (calculateEqualPayment p r n) r)^[j + 1 + 1] p :=
      eqBalance_nonneg p r n (j + 1 + 1) hp hr hn hjn
    have h3 := eqBalance_strict_anti p r n (j + 1) hp hr hn
    simp only [max_eq_right h2, max_eq_right (le_trans h2 h3.le)]
    exact h3
  · intro j h
    rw [hgetsB (j + 1) h, hgetsB j (Nat.lt_of_succ_lt h)]
    have hjn : j + 1 + 1 ≤ n := by omega
    have h2 : 0 ≤ p - ((j:ℚ) + 1 + 1) * (p / n) := by
      have := prinBalance_nonneg p n (j + 1 + 1) hp hn hjn
      push_cast at this ⊢
      linarith
    have h3 : p - ((j:ℚ) + 1 + 1) * (p / n) < p - ((j:ℚ) + 1) * (p / n) := by
      nlinarith
    push_cast
    simp only [max_eq_right h2, max_eq_right (le_trans h2 h3.le)]
    exact h3
  · intro h
    rw [hgetsA (n - 1) h]
    have hnn : n - 1 + 1 = n := by omega
    rw [hnn, eqBalance_final p r n hr hn]
    simp
  · intro h
    rw [hgetsB (n - 1) h]
    have hnn : ((n - 1 : ℕ) : ℚ) + 1 = (n : ℚ) := by
      have : 1 ≤ n := hn
      push_cast [Nat.cast_sub this]
      ring
    have hn0 : (n:ℚ) ≠ 0 := by positivity
    have : p - (((n - 1 : ℕ) : ℚ) + 1) * (p / n) = 0 := by
      rw [hnn]
      field_simp
    rw [this]
    simp

/-- C9 witness at `p = 100`, `r = 0`, `n = 2`. -/
theorem schedule_balance_spec_witness :
    ((0:ℚ) < 100 ∧ (0:ℚ) ≤ 0 ∧ 1 ≤ 2) ∧
      (∀ e ∈ generateEqualPaymentSchedule 100 0 2, 0 ≤ e.balance) :=
  ⟨⟨by norm_num, by norm_num, by norm_num⟩,
    (schedule_balance_spec 100 0 2 (by norm_num) (by norm_num) (by norm_num)).1⟩

/-! ### Monotonicity of the equal-installment payment in the term -/

lemma calculateEqualPayment_pos (p r : ℚ) (n : ℕ) (hp : 0 < p) (hr : 0 < r)
    (hn : 1 ≤ n) : 0 < calculateEqualPayment p r n := by
  rw [calculateEqualPayment_pos_rate _ _ _ (ne_of_gt hr)]
  have hx : (1:ℚ) < (1 + r) ^ n := one_lt_pow_rate r hr n hn
  have hxpos : (0:ℚ) < (1 + r) ^ n := by positivity
  apply div_pos
  · positivity
  · linarith

lemma calculateEqualPayment_form (p r : ℚ) (n : ℕ) (hr : 0 < r) (hn : 1 ≤ n) :
    calculateEqualPayment p r n = p * r + p * r / ((1 + r) ^ n - 1) := by
  rw [calculateEqualPayment_pos_rate _ _ _ (ne_of_gt hr)]
  have hd : (0:ℚ) < (1 + r) ^ n - 1 := by
    have := one_lt_pow_rate r hr n hn
    linarith
  have hd' : ((1:ℚ) + r) ^ n - 1 ≠ 0 := ne_of_gt hd
  field_simp
  ring

/-- A longer term never has a larger equal-installment payment. -/
lemma calculateEqualPayment_antitone (p r : ℚ) (hp : 0 < p) (hr : 0 < r)
    {a b : ℕ} (ha : 1 ≤ a) (hab : a ≤ b) :
    calculateEqualPayment p r b ≤ calculateEqualPayment p r a := by
  rw [calculateEqualPayment_form p r a hr ha,
    calculateEqualPayment_form p r b hr (le_trans ha hab)]
  have hda : (0:ℚ) < (1 + r) ^ a - 1 := by
    have := one_lt_pow_rate r hr a ha
    linarith
  have hdb : (0:ℚ) < (1 + r) ^ b - 1 := by
    have := one_lt_pow_rate r hr b (le_trans ha hab)
    linarith
  have hle : ((1:ℚ) + r) ^ a ≤ (1 + r) ^ b :=
    pow_le_pow_right₀ (by linarith) hab
  have hdiv : p * r / ((1 + r) ^ b - 1) ≤ p * r / ((1 + r) ^ a - 1) := by
    rw [div_le_div_iff₀ hdb hda]
    have hpr : (0:ℚ) ≤ p * r := (mul_pos hp hr).le
    nlinarith [mul_le_mul_of_nonneg_left hle hpr]
  linarith

/-! ### Correctness of the binary search -/

/-- Invariant-based specification of `binarySearchLoop`.  Starting from any
state satisfying the loop invariant, the returned value `res` lies in
`[1, 1000]`, every shorter admissible term has payment above the target, and
either the payment at `res` is within the target or `res` is the ceiling
value `1000`. -/
lemma binarySearchLoop_spec (p r t : ℚ) (hp : 0 < p) (hr : 0 < r) :
    ∀ N : ℕ, ∀ low high result : ℤ,
      (high + 1 - low).toNat ≤ N →
      1 ≤ low →
      high ≤ 1000 →
      result ≤ 1000 →
      (∀ m : ℕ, 1 ≤ m → (m : ℤ) < low → t < calculateEqualPayment p r m) →
      ((result = 1000 ∧ high = 1000) ∨
        (calculateEqualPayment p r result.toNat ≤ t ∧ result = high + 1 ∧
          1 ≤ result)) →
      1 ≤ binarySearchLoop p r t low high result ∧
      binarySearchLoop p r t low high result ≤ 1000 ∧
      (∀ m : ℕ, 1 ≤ m → (m : ℤ) < binarySearchLoop p r t low high result →
        t < calculateEqualPayment p r m) ∧
      (calculateEqualPayment p r (binarySearchLoop p r t low high result).toNat ≤ t ∨
        binarySearchLoop p r t low high result = 1000) := by
  intro N
  induction N with
  | zero =>
    intro low high result hN hlow hhigh hres hmin hdisj
    have hexit : ¬ low ≤ high := by omega
    rw [binarySearchLoop, dif_neg hexit]
    rcases hdisj with ⟨h1, h2⟩ | ⟨h1, h2, h3⟩
    · subst h1
      exact ⟨by norm_num, le_refl _, fun m hm hmlt => hmin m hm (by omega),
        Or.inr rfl⟩
    · exact ⟨h3, hres, fun m hm hmlt => hmin m hm (by omega), Or.inl h1⟩
  | succ N ih =>
    intro low high result hN hlow hhigh hres hmin hdisj
    rw [binarySearchLoop]
    by_cases hlh : low ≤ high
    · rw [dif_pos hlh]
      simp only []
      set mid := (low + high) / 2 with hmid
      have hmlow : low ≤ mid := by omega
      have hmhigh : mid ≤ high := by omega
      by_cases htest : calculateEqualPayment p r mid.toNat ≤ t
      · rw [if_pos htest]
        apply ih low (mid - 1) mid (by omega) hlow (by omega) (by omega) hmin
        exact Or.inr ⟨htest, by ring, by omega⟩
      · rw [if_neg htest]
        apply ih (mid + 1) high result (by omega) (by omega) hhigh hres
        · intro m hm hmlt
          by_cases hml : (m : ℤ) < low
          · exact hmin m hm hml
          · have h1 : m ≤ mid.toNat := by omega
            have h2 : 1 ≤ mid.toNat := by omega
            calc t < calculateEqualPayment p r mid.toNat := lt_of_not_le htest
              _ ≤ calculateEqualPayment p r m :=
                calculateEqualPayment_antitone p r hp hr hm h1
        · rcases hdisj with ⟨h1, h2⟩ | ⟨h1, h2, h3⟩
          · exact Or.inl ⟨h1, h2⟩
          · exact Or.inr ⟨h1, h2, h3⟩
    · rw [dif_neg hlh]
      rcases hdisj with ⟨h1, h2⟩ | ⟨h1, h2, h3⟩
      · subst h1
        exact ⟨by norm_num, le_refl _, fun m hm hmlt => hmin m hm (by omega),
          Or.inr rfl⟩
      · exact ⟨h3, hres, fun m hm hmlt => hmin m hm (by omega), Or.inl h1⟩

/-- C2: for positive principal and target payment, `calculateNewPeriods`
with a positive monthly rate returns the smallest term in `[1, 1000]` whose
equal-installment payment is at most the target — in particular, for a
returned value strictly between 1 and 1000 the payment at that term is
within the target and the payment one period shorter exceeds it — returns
1000 when no term in range qualifies, and with a zero monthly rate returns
`⌈principal / targetPayment⌉`. -/
theorem calculateNewPeriods_spec (p r t : ℚ) (hp : 0 < p) (ht : 0 < t) :
    (0 < r →
      1 ≤ calculateNewPeriods p r t ∧
      calculateNewPeriods p r t ≤ 1000 ∧
      ((∃ n : ℕ, 1 ≤ n ∧ n ≤ 1000 ∧ calculateEqualPayment p r n ≤ t) →
        calculateEqualPayment p r (calculateNewPeriods p r t).toNat ≤ t ∧
        ∀ m : ℕ, 1 ≤ m → (m : ℤ) < calculateNewPeriods p r t →
          t < calculateEqualPayment p r m) ∧
      ((∀ n : ℕ, 1 ≤ n → n ≤ 1000 → t < calculateEqualPayment p r n) →
        calculateNewPeriods p r t = 1000) ∧
      (1 < calculateNewPeriods p r t → calculateNewPeriods p r t < 1000 →
        calculateEqualPayment p r (calculateNewPeriods p r t).toNat ≤ t ∧
        t < calculateEqualPayment p r ((calculateNewPeriods p r t).toNat - 1))) ∧
    (r = 0 → calculateNewPeriods p r t = ⌈p / t⌉) := by
  constructor
  · intro hr
    have hdef : calculateNewPeriods p r t = binarySearchLoop p r t 1 1000 1000 := by
      rw [calculateNewPeriods, if_neg (ne_of_gt hr)]
    have hpost := binarySearchLoop_spec p r t hp hr 1000 1 1000 1000
      (by norm_num) (by norm_num) (by norm_num) (by norm_num)
      (fun m hm hmlt => absurd hmlt (by omega))
      (Or.inl ⟨rfl, rfl⟩)
    rw [← hdef] at hpost
    obtain ⟨h1, h2, hmin, hlast⟩ := hpost
    refine ⟨h1, h2, ?_, ?_, ?_⟩
    · rintro ⟨n, hn1, hn1000, hSn⟩
      rcases hlast with hS | h1000
      · exact ⟨hS, hmin⟩
      · by_cases hS1000 : calculateEqualPayment p r 1000 ≤ t
        · refine ⟨?_, hmin⟩
          rw [h1000]
          exact hS1000
        · exfalso
          rcases Nat.lt_or_ge n 1000 with hlt | hge
          · exact absurd hSn (not_le.mpr (hmin n hn1 (by omega)))
          · have : n = 1000 := by omega
            rw [this] at hSn
            exact hS1000 hSn
    · intro hnone
      rcases hlast with hS | h1000
      · exfalso
        have hrange1 : 1 ≤ (calculateNewPeriods p r t).toNat := by omega
        have hrange2 : (calculateNewPeriods p r t).toNat ≤ 1000 := by omega
        exact absurd hS (not_le.mpr (hnone _ hrange1 hrange2))
      · exact h1000
    · intro hgt1 hlt1000
      have hS : calculateEqualPayment p r (calculateNewPeriods p r t).toNat ≤ t := by
        rcases hlast with hS | h1000
        · exact hS
        · omega
      refine ⟨hS, ?_⟩
      apply hmin
      · omega
      · omega
  · intro hr0
    rw [calculateNewPeriods, if_pos hr0]

/-- C2 witness at `p = 1000`, `r = 0`, `t = 100`. -/
theorem calculateNewPeriods_spec_witness :
    ((0:ℚ) < 1000 ∧ (0:ℚ) < 100) ∧
      calculateNewPeriods 1000 0 100 = ⌈(1000:ℚ) / 100⌉ :=
  ⟨⟨by norm_num, by norm_num⟩,
    (calculateNewPeriods_spec 1000 0 100 (by norm_num) (by norm_num)).2 rfl⟩

/-! ### First-entry payments -/

lemma generateEqualPaymentSchedule_headI (p r : ℚ) (n : ℕ) (hn : 1 ≤ n) :
    (generateEqualPaymentSchedule p r n).headI.payment =
      calculateEqualPayment p r n := by
  match n, hn with
  | k + 1, _ =>
    rw [generateEqualPaymentSchedule, equalPaymentLoop]
    rfl

lemma generateEqualPrincipalSchedule_headI (p r : ℚ) (n : ℕ) (hn : 1 ≤ n) :
    (generateEqualPrincipalSchedule p r n).headI.payment =
      p / n + p * r := by
  match n, hn with
  | k + 1, _ =>
    rw [generateEqualPrincipalSchedule, equalPrincipalLoop]
    rfl

/-- C5: when the prepayment covers the whole remaining loan, the
calculation short-circuits: zero new payment, zero new interest, all
original interest saved, the whole term eliminated, empty schedule —
whatever the repayment method and prepayment strategy. -/
theorem calculateMortgage_terminal (input : MortgageInput)
    (hL : 0 < input.totalLoan) (hn : 1 ≤ input.remainingPeriods)
    (hterm : input.totalLoan - input.prepaymentAmount ≤ 0) :
    (calculateMortgage input).newMonthlyPayment = 0 ∧
    (calculateMortgage input).totalInterestNew = 0 ∧
    (calculateMortgage input).interestSavings =
      (calculateMortgage input).totalInterestOriginal ∧
    (calculateMortgage input).periodReduction = (input.remainingPeriods : ℤ) ∧
    (calculateMortgage input).newRemainingPeriods = 0 ∧
    (calculateMortgage input).schedule = [] := by
  obtain ⟨L, n, ar, pa, rm, pt⟩ := input
  simp only [calculateMortgage] at *
  rw [if_pos hterm]
  exact ⟨rfl, rfl, rfl, rfl, rfl, rfl⟩

/-- C5 witness: the spec's terminal-case example, with
`totalLoan = prepaymentAmount = 500000`. -/
theorem calculateMortgage_terminal_witness :
    ((0:ℚ) < 500000 ∧ 1 ≤ 240 ∧ (500000:ℚ) - 500000 ≤ 0) ∧
      (calculateMortgage
        ⟨500000, 240, 385/100, 500000,
          RepaymentMethod.equal_principal_interest,
          PrepaymentType.reduce_payment⟩).schedule = [] :=
  ⟨⟨by norm_num, by norm_num, by norm_num⟩,
    (calculateMortgage_terminal
      ⟨500000, 240, 385/100, 500000,
        RepaymentMethod.equal_principal_interest,
        PrepaymentType.reduce_payment⟩
      (by norm_num) (by norm_num) (by norm_num)).2.2.2.2.2⟩

/-- C3: with the ReduceTerm strategy and the equal-principal method, the
new term is `⌈remainingPrincipal / (totalLoan / remainingPeriods)⌉` — the
principal portion pinned to the original schedule's — the new monthly
payment is the original one, and the period reduction is the difference of
the terms. -/
theorem reduceTerm_equalPrincipal_spec (input : MortgageInput)
    (hL : 0 < input.totalLoan) (hn : 1 ≤ input.remainingPeriods)
    (hrm : input.repaymentMethod = RepaymentMethod.equal_principal)
    (hpt : input.prepaymentType = PrepaymentType.reduce_period)
    (hrem : 0 < input.totalLoan - input.prepaymentAmount) :
    (calculateMortgage input).newRemainingPeriods =
      ⌈(input.totalLoan - input.prepaymentAmount) /
        (input.totalLoan / input.remainingPeriods)⌉ ∧
    (calculateMortgage input).newMonthlyPayment =
      (calculateMortgage input).originalMonthlyPayment ∧
    (calculateMortgage input).periodReduction =
      (input.remainingPeriods : ℤ) -
        (calculateMortgage input).newRemainingPeriods := by
  obtain ⟨L, n, ar, pa, rm, pt⟩ := input
  cases hrm
  cases hpt
  simp only [calculateMortgage] at *
  rw [if_neg (not_le.mpr hrem)]
  exact ⟨rfl, rfl, rfl⟩

/-- C3 witness at `totalLoan = 1000`, 10 periods, zero rate, prepayment
100, equal-principal, reduce-term. -/
theorem reduceTerm_equalPrincipal_spec_witness :
    ((0:ℚ) < 1000 ∧ 1 ≤ 10 ∧ (0:ℚ) < 1000 - 100) ∧
      (calculateMortgage
        ⟨1000, 10, 0, 100, RepaymentMethod.equal_principal,
          PrepaymentType.reduce_period⟩).newRemainingPeriods =
        ⌈((1000:ℚ) - 100) / (1000 / 10)⌉ :=
  ⟨⟨by norm_num, by norm_num, by norm_num⟩,
    (reduceTerm_equalPrincipal_spec
      ⟨1000, 10, 0, 100, RepaymentMethod.equal_principal,
        PrepaymentType.reduce_period⟩
      (by norm_num) (by norm_num) rfl rfl (by norm_num)).1⟩

/-! ### Monotonicity of the first payment in the principal -/

lemma calculateEqualPayment_strictMono_principal (p q r : ℚ) (n : ℕ)
    (hpq : p < q) (hr : 0 ≤ r) (hn : 1 ≤ n) :
    calculateEqualPayment p r n < calculateEqualPayment q r n := by
  have hn0 : (0:ℚ) < (n:ℚ) := by exact_mod_cast (by omega : 0 < n)
  rcases eq_or_lt_of_le hr with hr0 | hrpos
  · rw [calculateEqualPayment, if_pos hr0.symm, calculateEqualPayment,
      if_pos hr0.symm]
    exact div_lt_div_of_pos_right hpq hn0
  · rw [calculateEqualPayment_pos_rate _ _ _ (ne_of_gt hrpos),
      calculateEqualPayment_pos_rate _ _ _ (ne_of_gt hrpos)]
    have hd : (0:ℚ) < (1 + r) ^ n - 1 := by
      have := one_lt_pow_rate r hrpos n hn
      linarith
    have hA : (0:ℚ) < r * (1 + r) ^ n := by positivity
    rw [div_lt_div_iff_of_pos_right hd]
    exact mul_lt_mul_of_pos_right hpq hA

lemma calculateEqualPayment_mono_principal (p q r : ℚ) (n : ℕ)
    (hpq : p ≤ q) (hr : 0 ≤ r) (hn : 1 ≤ n) :
    calculateEqualPayment p r n ≤ calculateEqualPayment q r n := by
  rcases eq_or_lt_of_le hpq with h | h
  · rw [h]
  · exact (calculateEqualPayment_strictMono_principal p q r n h hr hn).le

lemma firstPrincipalPayment_strictMono (p q r : ℚ) (n : ℕ)
    (hpq : p < q) (hr : 0 ≤ r) (hn : 1 ≤ n) :
    p / (n:ℚ) + p * r < q / (n:ℚ) + q * r := by
  have hn0 : (0:ℚ) < (n:ℚ) := by exact_mod_cast (by omega : 0 < n)
  have hc : (0:ℚ) < 1 / (n:ℚ) + r := by positivity
  have h := mul_lt_mul_of_pos_right hpq hc
  calc p / (n:ℚ) + p * r = p * (1 / (n:ℚ) + r) := by ring
    _ < q * (1 / (n:ℚ) + r) := h
    _ = q / (n:ℚ) + q * r := by ring

/-- C4: the ReducePayment strategy keeps the term and sets the period
reduction to zero, regenerates the schedule over the reduced principal with
the same method over the same term, reports its first payment as the new
monthly payment, and a positive prepayment makes the new payment strictly
smaller than the original one. -/
theorem reducePayment_spec (input : MortgageInput)
    (hL : 0 < input.totalLoan) (hn : 1 ≤ input.remainingPeriods)
    (har : 0 ≤ input.annualRate)
    (hpt : input.prepaymentType = PrepaymentType.reduce_payment)
    (hrem : 0 < input.totalLoan - input.prepaymentAmount) :
    (calculateMortgage input).newRemainingPeriods =
      (input.remainingPeriods : ℤ) ∧
    (calculateMortgage input).periodReduction = 0 ∧
    (calculateMortgage input).schedule =
      (match input.repaymentMethod with
       | RepaymentMethod.equal_principal_interest =>
         generateEqualPaymentSchedule
           (input.totalLoan - input.prepaymentAmount)
           (getMonthlyRate input.annualRate) input.remainingPeriods
       | RepaymentMethod.equal_principal =>
         generateEqualPrincipalSchedule
           (input.totalLoan - input.prepaymentAmount)
           (getMonthlyRate input.annualRate) input.remainingPeriods) ∧
    (calculateMortgage input).newMonthlyPayment =
      (calculateMortgage input).schedule.headI.payment ∧
    (0 < input.prepaymentAmount →
      (calculateMortgage input).newMonthlyPayment <
        (calculateMortgage input).originalMonthlyPayment) := by
  obtain ⟨L, n, ar, pa, rm, pt⟩ := input
  cases hpt
  have hr0 : 0 ≤ getMonthlyRate ar := by
    rw [getMonthlyRate]
    positivity
  have hLL : L - pa < L → True := fun _ => trivial
  simp only [calculateMortgage] at *
  rw [if_neg (not_le.mpr hrem)]
  refine ⟨rfl, rfl, rfl, rfl, ?_⟩
  intro hpa
  have hlt : L - pa < L := by linarith
  cases rm
  · simp only []
    rw [generateEqualPaymentSchedule_headI _ _ _ hn,
      generateEqualPaymentSchedule_headI _ _ _ hn]
    exact calculateEqualPayment_strictMono_principal _ _ _ _ hlt hr0 hn
  · simp only []
    rw [generateEqualPrincipalSchedule_headI _ _ _ hn,
      generateEqualPrincipalSchedule_headI _ _ _ hn]
    exact firstPrincipalPayment_strictMono _ _ _ _ hlt hr0 hn

/-- C4 witness: the spec's end-to-end example (500000 over 240 periods at
3.85% annual, prepaying 100000, reduce-payment, equal-installment). -/
theorem reducePayment_spec_witness :
    ((0:ℚ) < 500000 ∧ 1 ≤ 240 ∧ (0:ℚ) ≤ 385/100 ∧
        (0:ℚ) < 500000 - 100000) ∧
      (calculateMortgage
        ⟨500000, 240, 385/100, 100000,
          RepaymentMethod.equal_principal_interest,
          PrepaymentType.reduce_payment⟩).periodReduction = 0 :=
  ⟨⟨by norm_num, by norm_num, by norm_num, by norm_num⟩,
    (reducePayment_spec
      ⟨500000, 240, 385/100, 100000,
        RepaymentMethod.equal_principal_interest,
        PrepaymentType.reduce_payment⟩
      (by norm_num) (by norm_num) (by norm_num) rfl (by norm_num)).2.1⟩

lemma ceil_div_le (L pa : ℚ) (n : ℕ) (hL : 0 < L) (hpa0 : 0 ≤ pa)
    (hn : 1 ≤ n) : ⌈(L - pa) / (L / (n:ℚ))⌉ ≤ (n:ℤ) := by
  rw [Int.ceil_le]
  push_cast
  have hq : (0:ℚ) < L / (n:ℚ) := by
    have hn0 : (0:ℚ) < (n:ℚ) := by exact_mod_cast (by omega : 0 < n)
    positivity
  rw [div_le_iff₀ hq]
  have hn0 : (n:ℚ) ≠ 0 := by
    have : (0:ℚ) < (n:ℚ) := by exact_mod_cast (by omega : 0 < n)
    positivity
  have hcancel : (n:ℚ) * (L / (n:ℚ)) = L := by
    field_simp
  rw [hcancel]
  linarith

/-- C6: under the caller preconditions, the ReduceTerm strategy never
lengthens the term: the new term is at most the remaining term, the period
reduction is their difference, and it is nonnegative — for both repayment
methods. -/
theorem reduceTerm_periods_le (input : MortgageInput)
    (hL : 0 < input.totalLoan) (hn : 1 ≤ input.remainingPeriods)
    (har : 0 ≤ input.annualRate) (hpa0 : 0 ≤ input.prepaymentAmount)
    (hpaL : input.prepaymentAmount < input.totalLoan)
    (hpt : input.prepaymentType = PrepaymentType.reduce_period) :
    (calculateMortgage input).newRemainingPeriods ≤
      (input.remainingPeriods : ℤ) ∧
    (calculateMortgage input).periodReduction =
      (input.remainingPeriods : ℤ) -
        (calculateMortgage input).newRemainingPeriods ∧
    0 ≤ (calculateMortgage input).periodReduction := by
  obtain ⟨L, n, ar, pa, rm, pt⟩ := input
  cases hpt
  have hrem : (0:ℚ) < L - pa := by
    simp only [] at hpaL
    simp only [] at hpa0
    linarith
  have hr0 : 0 ≤ getMonthlyRate ar := by
    rw [getMonthlyRate]
    simp only [] at har
    positivity
  simp only [calculateMortgage] at *
  rw [if_neg (not_le.mpr hrem)]
  cases rm
  · simp only []
    rw [generateEqualPaymentSchedule_headI _ _ _ hn]
    have hresle : calculateNewPeriods (L - pa) (getMonthlyRate ar)
        (calculateEqualPayment L (getMonthlyRate ar) n) ≤ (n:ℤ) := by
      rcases eq_or_lt_of_le hr0 with hrz | hrpos
      · rw [calculateNewPeriods, if_pos hrz.symm, ← hrz]
        rw [calculateEqualPayment, if_pos rfl]
        exact ceil_div_le L pa n hL hpa0 hn
      · have hMpos : 0 < calculateEqualPayment L (getMonthlyRate ar) n :=
          calculateEqualPayment_pos L _ n hL hrpos hn
        have hspec := (calculateNewPeriods_spec (L - pa) (getMonthlyRate ar)
          (calculateEqualPayment L (getMonthlyRate ar) n) hrem hMpos).1 hrpos
        rcases le_or_lt ((n:ℤ)) 1000 with hc | hc
        · have hSn : calculateEqualPayment (L - pa) (getMonthlyRate ar) n ≤
              calculateEqualPayment L (getMonthlyRate ar) n :=
            calculateEqualPayment_mono_principal (L - pa) L _ n (by linarith)
              hr0 hn
          have hex : ∃ m : ℕ, 1 ≤ m ∧ m ≤ 1000 ∧
              calculateEqualPayment (L - pa) (getMonthlyRate ar) m ≤
                calculateEqualPayment L (getMonthlyRate ar) n :=
            ⟨n, hn, by omega, hSn⟩
          obtain ⟨hS, hminim⟩ := hspec.2.2.1 hex
          by_contra hlt
          push_neg at hlt
          exact absurd hSn (not_le.mpr (hminim n hn hlt))
        · have := hspec.2.1
          omega
    exact ⟨hresle, trivial, by linarith⟩
  · simp only []
    have hresle := ceil_div_le L pa n hL hpa0 hn
    exact ⟨hresle, trivial, by linarith⟩

/-- C6 witness at `totalLoan = 500000`, 240 periods, zero annual rate,
prepayment 100000, equal-installment, reduce-term. -/
theorem reduceTerm_periods_le_witness :
    ((0:ℚ) < 500000 ∧ 1 ≤ 240 ∧ (0:ℚ) ≤ 0 ∧ (0:ℚ) ≤ 100000 ∧
        (100000:ℚ) < 500000) ∧
      (calculateMortgage
        ⟨500000, 240, 0, 100000,
          RepaymentMethod.equal_principal_interest,
          PrepaymentType.reduce_period⟩).newRemainingPeriods ≤
        ((240 : ℕ) : ℤ) :=
  ⟨⟨by norm_num, by norm_num, by norm_num, by norm_num, by norm_num⟩,
    (reduceTerm_periods_le
      ⟨500000, 240, 0, 100000,
        RepaymentMethod.equal_principal_interest,
        PrepaymentType.reduce_period⟩
      (by norm_num) (by norm_num) (by norm_num) (by norm_num) (by norm_num)
      rfl).1⟩

/-- C10: a concrete ReduceTerm input (1000 over 10 periods at 12% annual,
equal-principal, prepaying 100) whose result keeps `newMonthlyPayment`
pinned to the original payment while the returned schedule — regenerated
from the reduced principal over the shortened term — opens with a
different payment. -/
theorem reduceTerm_payment_mismatch :
    (calculateMortgage
      ⟨1000, 10, 12, 100, RepaymentMethod.equal_principal,
        PrepaymentType.reduce_period⟩).newMonthlyPayment =
      (calculateMortgage
        ⟨1000, 10, 12, 100, RepaymentMethod.equal_principal,
          PrepaymentType.reduce_period⟩).originalMonthlyPayment ∧
    (calculateMortgage
      ⟨1000, 10, 12, 100, RepaymentMethod.equal_principal,
        PrepaymentType.reduce_period⟩).newMonthlyPayment ≠
      (calculateMortgage
        ⟨1000, 10, 12, 100, RepaymentMethod.equal_principal,
          PrepaymentType.reduce_period⟩).schedule.headI.payment := by
  have hrate : getMonthlyRate 12 = 1 / 100 := by
    rw [getMonthlyRate]
    norm_num
  have hceil : (⌈((1000:ℚ) - 100) / (1000 / (10:ℕ))⌉ : ℤ) = 9 := by
    have harg : ((1000:ℚ) - 100) / (1000 / (10:ℕ)) = ((9:ℤ) : ℚ) := by
      push_cast
      norm_num
    rw [harg, Int.ceil_intCast]
  constructor
  · simp only [calculateMortgage]
    rw [if_neg (by norm_num)]
  · simp only [calculateMortgage]
    rw [if_neg (by norm_num)]
    simp only [hceil, hrate]
    have h1 : ((9:ℤ).toNat) = 9 := rfl
    rw [h1]
    rw [generateEqualPrincipalSchedule_headI 1000 (1/100) 10 (by norm_num),
      generateEqualPrincipalSchedule_headI (1000 - 100) (1/100) 9 (by norm_num)]
    norm_num

end Mortgage
